import Mathlib

/-!
Verification of the dual-view token-sequence engine of `codeprep`
(`src/codeprep/tokens.py`) against its natural-language specification.

The Python classes `PreppedTokenSequence`, `PreppedSubTokenSequence`,
`PreppedFullTokenSequence` and `SurrogatePreppedTokenSequence` are embedded
shallowly: raised exceptions become `Except PyError` results, Python lists
become Lean `List`s, and Python's slice semantics is modelled explicitly
(`pySlice`).  The derived index tables computed in `__post_init__` are stored
in the structure (as in the source, where they live in the instance `__dict__`
and are *not* recomputed by mutating operations such as `add`).  The
`sub_to_full` dictionary `{n: i for i, n in enumerate(full_to_sub)}` is a pure
function of the stored `full_to_sub` list (last occurrence wins), so it is
modelled by `dictLookup` over that stored list.
-/

/-- Modelled from the spec: `placeholders['compound_word_end']` comes from
`codeprep/preprocess/placeholders.py`, which is not part of this snapshot.
The doctests in `src/codeprep/tokens.py` fix the marker to the string
`"</t>"` (tokens such as `'hi</t>'` validate with `word_end_token_added=True`,
and the error message speaks of `</t>`). -/
def compound_word_end : String := "</t>"

/-- Python `str.endswith`, modelled on the character list of the string. -/
def pyEndsWith (s suf : String) : Bool :=
  suf.data.isSuffixOf s.data

/-- `is_terminal_subtoken` from `src/codeprep/tokens.py` (default
`use_token_end_chars=True` path; the other path raises and is outside the
claims considered here). -/
def is_terminal_subtoken (subtoken : String) : Bool :=
  pyEndsWith subtoken compound_word_end

/-- Modelled from the spec: `cum_sum` comes from `codeprep/util/misc.py`,
which is not part of this snapshot.  Per the spec's index-translator section,
`[0] + list(cum_sum(counts))` is the prefix-sum table mapping full-token
index to sub-token start offset, so `cum_sum` is the list of running sums. -/
def cum_sum : List Nat → List Nat :=
  go 0
where
  go (acc : Nat) : List Nat → List Nat
    | [] => []
    | x :: xs => (acc + x) :: go (acc + x) xs

/-- Modelled from the spec: `PreppedTokenMetadata` comes from
`codeprep/preprocess/metadata.py`, which is not part of this snapshot.
Per the spec's data model it is a pair of parallel arrays: sub-token counts
and a type tag per full token. -/
structure PreppedTokenMetadata (τ : Type) where
  n_subtokens_per_token : List Nat
  token_types : List τ
deriving DecidableEq

/-- Modelled from the spec: metadata concatenation (`metadata.update_`)
appends both parallel arrays. -/
def PreppedTokenMetadata.update_ {τ : Type} (m o : PreppedTokenMetadata τ) :
    PreppedTokenMetadata τ :=
  ⟨m.n_subtokens_per_token ++ o.n_subtokens_per_token,
   m.token_types ++ o.token_types⟩

/-- The Python exceptions raised by `src/codeprep/tokens.py`, tagged by raise
site. -/
inductive PyError where
  /-- `ValueError` from `__post_init__`: token count disagrees with the
  metadata's total sub-token count. -/
  | lengthMismatch (n_tokens n_subtokens : Nat) : PyError
  /-- `AssertionError` from `__post_init__`: a full token does not end with
  the end-of-word marker although `word_end_token_added` is set. -/
  | missingTerminalMarker (token : String) : PyError
  /-- the `raise NotImplemented(...)` at the slice-step check of
  `__getitem__`. -/
  | unsupportedStep : PyError
  /-- `TypeError`: wrong operand kind for `add` / `__setitem__`. -/
  | invalidOperand : PyError
  /-- `KeyError` escaping a `sub_to_full` dictionary lookup. -/
  | keyError (k : Int) : PyError
  /-- `IndexError` from a raw list access. -/
  | indexError : PyError
deriving DecidableEq

/-- `SurrogatePreppedTokenSequence`: the unsynchronized carrier holding raw
tokens only. -/
structure SurrogatePreppedTokenSequence where
  tokens : List String
deriving DecidableEq

/-- Shared state of `PreppedTokenSequence`.  The field
`full_to_sub_token_indices` is the table `[0] + list(cum_sum(counts))`
computed in `__post_init__` and stored in the instance; mutating operations
(`add`, `update_`) do not recompute it.  The `sub_to_full` dictionary is the
last-occurrence index function of this stored list (see `dictLookup`). -/
structure PreppedTokenSequence (τ : Type) where
  tokens : List String
  metadata : PreppedTokenMetadata τ
  word_end_token_added : Bool
  full_to_sub_token_indices : List Nat
deriving DecidableEq

/-- The table `[0] + list(cum_sum(n_subtokens_per_token))` built in
`__post_init__`. -/
def fullToSubTable (counts : List Nat) : List Nat :=
  0 :: cum_sum counts

/-- The dictionary `{n: i for i, n in enumerate(l)}` of `__post_init__`,
applied to a key: the index of the *last* occurrence of `k` in `l`
(later comprehension entries override earlier ones). -/
def dictLookup : List Nat → Int → Option Nat :=
  go 0
where
  go (i : Nat) : List Nat → Int → Option Nat
    | [], _ => none
    | x :: xs, k =>
      match go (i + 1) xs k with
      | some v => some v
      | none => if (x : Int) = k then some i else none

/-- `_FullOverSubTokenIterator`, materialized: for each per-token count `c`,
emit `formatter` applied to the next `c` elements of `over` (Python slices
truncate silently when `over` is exhausted). -/
def fullOverSubIter {α γ : Type} (over : List α) (counts : List Nat)
    (formatter : List α → γ) : List γ :=
  match counts with
  | [] => []
  | c :: rest => formatter (over.take c) :: fullOverSubIter (over.drop c) rest formatter

/-- The `_SubOverFullTokenIterator` loop: yields `over[w]`, then advances the
sub-index and, past the current token's count, the full-word index; stops when
`w ≥ len(over)`; an out-of-range `counts[w]` access raises (`none`). -/
def subOverFullAux {α : Type} (over : List α) (counts : List Nat)
    (w idx : Nat) : Option (List α) :=
  if h : w < over.length then
    match hc : counts.get? w with
    | none => none
    | some c =>
      if idx + 1 ≥ c then
        (subOverFullAux over counts (w + 1) 0).map (fun t => over.get ⟨w, h⟩ :: t)
      else
        (subOverFullAux over counts w (idx + 1)).map (fun t => over.get ⟨w, h⟩ :: t)
  else
    some []
termination_by (over.length - w, ((counts.get? w).getD 0) - idx)
decreasing_by
  · exact Prod.Lex.left _ _ (by omega)
  · have hd : (counts.get? w).getD 0 = c := by rw [hc]; rfl
    rw [hd] at *
    exact Prod.Lex.right _ (by omega)

/-- `_SubOverFullTokenIterator`, materialized from its initial state. -/
def subOverFullIter {α : Type} (over : List α) (counts : List Nat) :
    Option (List α) :=
  subOverFullAux over counts 0 0

/-- The `word_end_token_added` validation loop of `__post_init__`: the first
joined full token that is not terminal (if any). -/
def firstNonTerminalToken (tokens : List String) (counts : List Nat) :
    Option String :=
  (fullOverSubIter tokens counts String.join).find? (fun t => ! is_terminal_subtoken t)

/-- The checks of `PreppedTokenSequence.__post_init__`, in source order. -/
def validateSeq {τ : Type} (tokens : List String) (md : PreppedTokenMetadata τ)
    (word_end_token_added : Bool) : Except PyError Unit :=
  if tokens.length ≠ md.n_subtokens_per_token.sum then
    .error (.lengthMismatch tokens.length md.n_subtokens_per_token.sum)
  else if word_end_token_added then
    match firstNonTerminalToken tokens md.n_subtokens_per_token with
    | some t => .error (.missingTerminalMarker t)
    | none => .ok ()
  else
    .ok ()

/-- Constructing a `PreppedTokenSequence` (the dataclass constructor followed
by `__post_init__`): validate, then store the derived table. -/
def mkPreppedTokenSequence {τ : Type} (tokens : List String)
    (md : PreppedTokenMetadata τ) (word_end_token_added : Bool) :
    Except PyError (PreppedTokenSequence τ) :=
  (validateSeq tokens md word_end_token_added).map
    (fun _ => ⟨tokens, md, word_end_token_added, fullToSubTable md.n_subtokens_per_token⟩)

/-- `PreppedFullTokenSequence`: the base state plus a formatter and the
`return_token_type` flag. -/
structure PreppedFullTokenSequence (τ β : Type) extends PreppedTokenSequence τ where
  formatter : List String → β
  return_token_type : Bool

/-- Constructing a `PreppedFullTokenSequence` (validation is the inherited
`__post_init__`). -/
def mkPreppedFullTokenSequence {τ β : Type} (tokens : List String)
    (md : PreppedTokenMetadata τ) (word_end_token_added : Bool)
    (formatter : List String → β) (return_token_type : Bool) :
    Except PyError (PreppedFullTokenSequence τ β) :=
  (validateSeq tokens md word_end_token_added).map
    (fun _ => ⟨⟨tokens, md, word_end_token_added,
               fullToSubTable md.n_subtokens_per_token⟩,
              formatter, return_token_type⟩)

/-- `PreppedTokenSequence.full_tokens_view`. -/
def full_tokens_view {τ β : Type} (s : PreppedTokenSequence τ)
    (formatter : List String → β) (return_token_type : Bool) :
    Except PyError (PreppedFullTokenSequence τ β) :=
  mkPreppedFullTokenSequence s.tokens s.metadata s.word_end_token_added
    formatter return_token_type

/-- `PreppedTokenSequence.sub_token_view` (a `PreppedSubTokenSequence` adds no
fields to the base dataclass). -/
def sub_token_view {τ : Type} (s : PreppedTokenSequence τ) :
    Except PyError (PreppedTokenSequence τ) :=
  mkPreppedTokenSequence s.tokens s.metadata s.word_end_token_added

/-- Python list access `l[i]` (negative indices count from the end; out of
range raises). -/
def pyListGet {α : Type} (l : List α) (i : Int) : Option α :=
  if i < 0 then
    if (l.length : Int) + i < 0 then none
    else l.get? ((l.length : Int) + i).toNat
  else
    l.get? i.toNat

/-- One bound of a step-one Python slice: `none` falls back to `dflt`,
negative values count from the end (clamped at 0), positive values are
clamped at the length. -/
def pyBound (L : Nat) (dflt : Nat) : Option Int → Nat
  | none => dflt
  | some i => if i < 0 then (max 0 ((L : Int) + i)).toNat else min i.toNat L

/-- Python step-one list slicing `l[start:stop]`. -/
def pySlice {α : Type} (l : List α) (start stop : Option Int) : List α :=
  let a := pyBound l.length 0 start
  let b := pyBound l.length l.length stop
  (l.drop a).take (b - a)

/-- `PreppedTokenSequence._convert_index` for a non-`None` index: `n` is the
view's own length, `f` the conversion function (which may raise, `none`). -/
def convertIndexCore (n : Nat) (f : Int → Option Int) (i : Int) : Option Int :=
  if i < -(n : Int) then
    (convertIndexCore n f ((n : Int) + 1)).map (fun v => -v - 1)
  else if i < 0 then
    convertIndexCore n f ((n : Int) + i)
  else if i > (n : Int) then
    convertIndexCore n f (n : Int)
  else
    f i
termination_by ((if i < 0 then 2 else if i > (n : Int) then 1 else 0) : Nat)
decreasing_by
  all_goals simp_wf
  all_goals split_ifs <;> omega

/-- `_convert_index` on an optional index: `None` stays `None` (before the
length is even computed); the outer `Option` is the exception channel of the
conversion function. -/
def convertIndexOpt (n : Nat) (f : Int → Option Int) :
    Option Int → Option (Option Int)
  | none => some none
  | some i => (convertIndexCore n f i).map some

/-- The conversion function of `_full_to_sub_index`: a raw list access into
the stored `full_to_sub` table. -/
def fullToSubFn {τ : Type} (s : PreppedTokenSequence τ) (i : Int) : Option Int :=
  (pyListGet s.full_to_sub_token_indices i).map (fun v => (v : Int))

/-- The conversion function of `_sub_to_full_index`: a lookup in the stored
`sub_to_full` dictionary (a `KeyError` is re-raised as a `KeyError`). -/
def subToFullFn {τ : Type} (s : PreppedTokenSequence τ) (i : Int) : Option Int :=
  (dictLookup s.full_to_sub_token_indices i).map (fun v => (v : Int))

/-- `PreppedFullTokenSequence.__len__`: the stored `sub_to_full` dictionary
looked up at `len(self.tokens)`; `none` is the `KeyError` case. -/
def fullLenOpt {τ β : Type} (s : PreppedFullTokenSequence τ β) : Option Nat :=
  dictLookup s.full_to_sub_token_indices (s.tokens.length : Int)

/-- `PreppedSubTokenSequence.__len__`. -/
def subLen {τ : Type} (s : PreppedTokenSequence τ) : Nat :=
  s.tokens.length

/-- `_full_to_sub_index` on one optional bound of a full view (computing
`len(self)` only when the bound is not `None`, as in the source). -/
def fullConvert {τ β : Type} (s : PreppedFullTokenSequence τ β) :
    Option Int → Except PyError (Option Int)
  | none => .ok none
  | some i =>
    match fullLenOpt s with
    | none => .error (.keyError (s.tokens.length : Int))
    | some n =>
      match convertIndexCore n (fullToSubFn s.toPreppedTokenSequence) i with
      | some v => .ok (some v)
      | none => .error .indexError

/-- `_sub_to_full_index` on one optional bound of a sub view; the outer
`Option` is the `KeyError` channel. -/
def subConvert {τ : Type} (s : PreppedTokenSequence τ) :
    Option Int → Option (Option Int) :=
  convertIndexOpt (subLen s) (subToFullFn s)

/-- A `__getitem__` argument: an integer or a slice with optional bounds and
step. -/
inductive GetItemKey where
  | int : Int → GetItemKey
  | slice : Option Int → Option Int → Option Int → GetItemKey

/-- The prologue shared by both `__getitem__`s: an integer key becomes
`slice(i, i + 1, 1)`; an explicit slice step is rejected. -/
def getItemBounds : GetItemKey → Except PyError (Option Int × Option Int)
  | .int i => .ok (some i, some (i + 1))
  | .slice a b none => .ok (a, b)
  | .slice _ _ (some _) => .error .unsupportedStep

/-- The result of slicing a sub-token view: a synchronized view or the
unsynchronized carrier. -/
inductive SubSliceResult (τ : Type) where
  | view : PreppedTokenSequence τ → SubSliceResult τ
  | carrier : SurrogatePreppedTokenSequence → SubSliceResult τ
deriving DecidableEq

/-- `PreppedSubTokenSequence.__getitem__`: translate both bounds to full-token
indices; on success build a synchronized sub view over `tokens[item]` and the
metadata sliced at the translated range (construction errors propagate); a
`KeyError` from either translation degrades to the carrier over
`tokens[item]`. -/
def subGetItem {τ : Type} (s : PreppedTokenSequence τ) (key : GetItemKey) :
    Except PyError (SubSliceResult τ) := do
  let (start, stop) ← getItemBounds key
  match subConvert s start, subConvert s stop with
  | some cs, some ce =>
    (mkPreppedTokenSequence (pySlice s.tokens start stop)
      ⟨pySlice s.metadata.n_subtokens_per_token cs ce,
       pySlice s.metadata.token_types cs ce⟩
      s.word_end_token_added).map SubSliceResult.view
  | _, _ => .ok (.carrier ⟨pySlice s.tokens start stop⟩)

/-- `PreppedFullTokenSequence.__getitem__`: translate both bounds via
`full_to_sub`, slice `tokens` at the translated range and the metadata at the
original range, and construct a new full view (construction errors
propagate). -/
def fullGetItem {τ β : Type} (s : PreppedFullTokenSequence τ β)
    (key : GetItemKey) : Except PyError (PreppedFullTokenSequence τ β) := do
  let (start, stop) ← getItemBounds key
  let cs ← fullConvert s start
  let ce ← fullConvert s stop
  mkPreppedFullTokenSequence (pySlice s.tokens cs ce)
    ⟨pySlice s.metadata.n_subtokens_per_token start stop,
     pySlice s.metadata.token_types start stop⟩
    s.word_end_token_added s.formatter s.return_token_type

/-- An operand of `add` / `__add__` (Python passes arbitrary objects; the
`isinstance` checks distinguish synchronized sequences, carriers, and
everything else). -/
inductive AddOperand (τ : Type) where
  | seq : PreppedTokenSequence τ → AddOperand τ
  | surrogate : SurrogatePreppedTokenSequence → AddOperand τ
  | other : AddOperand τ

/-- The result of `PreppedTokenSequence.add`. -/
inductive SeqAddResult (τ : Type) where
  | seq : PreppedTokenSequence τ → SeqAddResult τ
  | surrogate : SurrogatePreppedTokenSequence → SeqAddResult τ
deriving DecidableEq

/-- `PreppedTokenSequence.add`: a sequence operand extends `tokens` and merges
`metadata` in place and the receiver is returned (derived tables are *not*
recomputed); a carrier operand yields a new carrier over the concatenated raw
tokens; anything else raises `TypeError`. -/
def seqAdd {τ : Type} (s : PreppedTokenSequence τ) (o : AddOperand τ) :
    Except PyError (SeqAddResult τ) :=
  match o with
  | .seq t =>
    .ok (.seq { s with tokens := s.tokens ++ t.tokens,
                       metadata := s.metadata.update_ t.metadata })
  | .surrogate t => .ok (.surrogate ⟨s.tokens ++ t.tokens⟩)
  | .other => .error .invalidOperand

/-- The inherited `add` as executed on a full-view receiver with a sequence
operand: the mutated receiver keeps its formatter, flag and (stale) derived
tables. -/
def fullAdd {τ β : Type} (s : PreppedFullTokenSequence τ β)
    (o : PreppedTokenSequence τ) : PreppedFullTokenSequence τ β :=
  { s with toPreppedTokenSequence :=
      { s.toPreppedTokenSequence with
          tokens := s.tokens ++ o.tokens,
          metadata := s.metadata.update_ o.metadata } }

/-- `SurrogatePreppedTokenSequence.add`: only another carrier is accepted;
any other operand (including a synchronized sequence) raises `TypeError`. -/
def surrogateAdd {τ : Type} (s : SurrogatePreppedTokenSequence)
    (o : AddOperand τ) : Except PyError SurrogatePreppedTokenSequence :=
  match o with
  | .surrogate t => .ok ⟨s.tokens ++ t.tokens⟩
  | _ => .error .invalidOperand

/-- A value assigned through `PreppedFullTokenSequence.__setitem__` (the
`isinstance` check accepts only full views). -/
inductive SetItemValue (τ β : Type) where
  | fullView : PreppedFullTokenSequence τ β → SetItemValue τ β
  | subView : PreppedTokenSequence τ → SetItemValue τ β
  | surrogate : SurrogatePreppedTokenSequence → SetItemValue τ β
  | other : SetItemValue τ β

/-- `PreppedFullTokenSequence.__setitem__`: reject non-full-view values with
`TypeError`; otherwise splice `self[:key] + value + self[key+1:]` and adopt
the combined state. -/
def fullSetItem {τ β : Type} (s : PreppedFullTokenSequence τ β) (key : Int)
    (value : SetItemValue τ β) : Except PyError (PreppedFullTokenSequence τ β) :=
  match value with
  | .fullView v => do
    let pre ← fullGetItem s (.slice none (some key) none)
    let suf ← fullGetItem s (.slice (some (key + 1)) none none)
    .ok (fullAdd (fullAdd pre v.toPreppedTokenSequence) suf.toPreppedTokenSequence)
  | _ => .error .invalidOperand

/-- `PreppedSubTokenSequence.get_iterator`: broadcast mode replicates each
element of `over` across its full token's sub-tokens; otherwise `over` is
iterated unchanged.  `none` is an exception inside the iterator. -/
def subGetIterator {τ α : Type} (s : PreppedTokenSequence τ) (over : List α)
    (over_full_tokens : Bool) : Option (List α) :=
  if over_full_tokens then
    subOverFullIter over s.metadata.n_subtokens_per_token
  else
    some over

/-- `PreppedFullTokenSequence.get_iterator`: with `over_full_tokens` the
external data is iterated unchanged (left); otherwise it is grouped by the
per-token sub-counts through the supplied formatter (right). -/
def fullGetIterator {τ β α γ : Type} (s : PreppedFullTokenSequence τ β)
    (over : List α) (over_full_tokens : Bool) (formatter : List α → γ) :
    List α ⊕ List γ :=
  if over_full_tokens then
    .inl over
  else
    .inr (fullOverSubIter over s.metadata.n_subtokens_per_token formatter)

/-- `PreppedFullTokenSequence.__iter__` without `return_token_type`: the
formatted full tokens. -/
def fullIterTokens {τ β : Type} (s : PreppedFullTokenSequence τ β) : List β :=
  fullOverSubIter s.tokens s.metadata.n_subtokens_per_token s.formatter

/-- A base sequence is valid when the source constructor, run on its own
tokens, metadata and flag, succeeds and reproduces it (in particular its
stored table is the canonical one). -/
def IsValid {τ : Type} (s : PreppedTokenSequence τ) : Prop :=
  mkPreppedTokenSequence s.tokens s.metadata s.word_end_token_added = .ok s

/-- Validity of a full view: its base state is valid. -/
def IsValidFull {τ β : Type} (s : PreppedFullTokenSequence τ β) : Prop :=
  IsValid s.toPreppedTokenSequence

/-- The running example of the source doctests: tokens
`['hi</t>', 'the', 're</t>']` with counts `[1, 2]` (token types rendered as
`Nat` tags). -/
def exMeta : PreppedTokenMetadata Nat := ⟨[1, 2], [0, 0]⟩

/-- The doctest sequence, as constructed (its stored table is `[0, 1, 3]`). -/
def exSeq : PreppedTokenSequence Nat :=
  ⟨["hi</t>", "the", "re</t>"], exMeta, true, [0, 1, 3]⟩

/-- The assignment example of the source doctests: a full view over
`['hi</t>', 'there</t>']` with counts `[1, 1]`, formatted by string join. -/
def exFull2 : PreppedFullTokenSequence Nat String :=
  ⟨⟨["hi</t>", "there</t>"], ⟨[1, 1], [0, 0]⟩, true, [0, 1, 2]⟩,
   String.join, false⟩

/-- A one-token full view (identity formatter) used as a concatenation
receiver. -/
def exCatA : PreppedFullTokenSequence Nat (List String) :=
  ⟨⟨["x</t>"], ⟨[1], [0]⟩, false, [0, 1]⟩, fun l => l, false⟩

/-- A one-token full view used as a concatenation operand. -/
def exCatB : PreppedFullTokenSequence Nat (List String) :=
  ⟨⟨["y</t>"], ⟨[1], [0]⟩, false, [0, 1]⟩, fun l => l, false⟩

instance {ε α : Type} [DecidableEq ε] [DecidableEq α] : DecidableEq (Except ε α) := fun a b =>
  match a, b with
  | .ok x, .ok y => if h : x = y then .isTrue (by rw [h]) else .isFalse (by simp [h])
  | .error x, .error y => if h : x = y then .isTrue (by rw [h]) else .isFalse (by simp [h])
  | .ok _, .error _ => .isFalse (by simp)
  | .error _, .ok _ => .isFalse (by simp)

/-- Pass-through case of index normalization: an index already in `[0, n]`
reaches the conversion function unchanged. -/
lemma convertIndexCore_in_range (n : Nat) (f : Int → Option Int) (i : Int)
    (h0 : 0 ≤ i) (h1 : i ≤ (n : Int)) : convertIndexCore n f i = f i := by
  rw [convertIndexCore, if_neg (by omega), if_neg (by omega), if_neg (by omega)]

/-- Clamping case: an index beyond the length is clamped to `n`. -/
lemma convertIndexCore_over (n : Nat) (f : Int → Option Int) (i : Int)
    (h : (n : Int) < i) : convertIndexCore n f i = f n := by
  rw [convertIndexCore, if_neg (by omega), if_neg (by omega), if_pos (by omega)]
  exact convertIndexCore_in_range n f n (by omega) (by omega)

/-- Negative-index case: `-n ≤ i < 0` is rewritten to `n + i`. -/
lemma convertIndexCore_neg_small (n : Nat) (f : Int → Option Int) (i : Int)
    (h0 : -(n : Int) ≤ i) (h1 : i < 0) :
    convertIndexCore n f i = f ((n : Int) + i) := by
  rw [convertIndexCore, if_neg (by omega), if_pos (by omega)]
  exact convertIndexCore_in_range n f _ (by omega) (by omega)

/-- Out-of-range negative case: an index below `-n` produces
`-(conversion of n) - 1`. -/
lemma convertIndexCore_neg_big (n : Nat) (f : Int → Option Int) (i : Int)
    (h : i < -(n : Int)) :
    convertIndexCore n f i = (f n).map (fun v => -v - 1) := by
  rw [convertIndexCore, if_pos (by omega)]
  rw [convertIndexCore_over n f _ (by omega)]

/-- Non-recursive closed form of `_convert_index` on a non-`None` index. -/
lemma convertIndexCore_closed (n : Nat) (f : Int → Option Int) (i : Int) :
    convertIndexCore n f i =
      if i < -(n : Int) then (f n).map (fun v => -v - 1)
      else if i < 0 then f ((n : Int) + i)
      else if (n : Int) < i then f n
      else f i := by
  split_ifs with h1 h2 h3
  · exact convertIndexCore_neg_big n f i h1
  · exact convertIndexCore_neg_small n f i (by omega) h2
  · exact convertIndexCore_over n f i h3
  · exact convertIndexCore_in_range n f i (by omega) (by omega)

/-- Each running sum is bounded by the starting accumulator plus the total. -/
lemma cum_sum_go_mem_le (acc : Nat) (counts : List Nat) (x : Nat)
    (hx : x ∈ cum_sum.go acc counts) : x ≤ acc + counts.sum := by
  induction counts generalizing acc with
  | nil => simp [cum_sum.go] at hx
  | cons c rest ih =>
    simp only [cum_sum.go, List.mem_cons] at hx
    rcases hx with rfl | hx
    · simp only [List.sum_cons]; omega
    · have := ih (acc + c) hx
      simp only [List.sum_cons]; omega

/-- The length of the running-sum list. -/
lemma cum_sum_go_length (acc : Nat) (counts : List Nat) :
    (cum_sum.go acc counts).length = counts.length := by
  induction counts generalizing acc with
  | nil => rfl
  | cons c rest ih => simp [cum_sum.go, ih]

/-- A key matching no element of the list is absent from the dictionary. -/
lemma dictLookup_go_none (i : Nat) (l : List Nat) (k : Int)
    (h : ∀ x ∈ l, (x : Int) ≠ k) : dictLookup.go i l k = none := by
  induction l generalizing i with
  | nil => rfl
  | cons x xs ih =>
    rw [dictLookup.go, ih (i + 1) (fun y hy => h y (List.mem_cons_of_mem x hy))]
    simp [h x (List.mem_cons_self x xs)]

/-- Looking up the total sub-token count in the table headed by `acc` finds
the final boundary. -/
lemma dictLookup_go_last (i acc : Nat) (counts : List Nat) :
    dictLookup.go i (acc :: cum_sum.go acc counts)
      (((acc + counts.sum : Nat) : Int)) = some (i + counts.length) := by
  induction counts generalizing i acc with
  | nil => simp [dictLookup.go, cum_sum.go]
  | cons c rest ih =>
    have hkey : ((acc + (c :: rest).sum : Nat) : Int) =
        (((acc + c) + rest.sum : Nat) : Int) := by
      simp [List.sum_cons]; omega
    rw [hkey]
    show dictLookup.go i (acc :: (acc + c) :: cum_sum.go (acc + c) rest) _ = _
    rw [dictLookup.go, ih (i + 1) (acc + c)]
    simp [List.length_cons]
    omega

/-- Looking up `sum(counts)` in the canonical table returns the number of
full tokens (the index of the table's last entry). -/
lemma dictLookup_table_sum (counts : List Nat) :
    dictLookup (fullToSubTable counts) ((counts.sum : Nat) : Int) =
      some counts.length := by
  have := dictLookup_go_last 0 0 counts
  simpa [dictLookup, fullToSubTable, cum_sum] using this

/-- A key strictly above `sum(counts)` is absent from the canonical
dictionary. -/
lemma dictLookup_table_gt (counts : List Nat) (k : Int)
    (h : (counts.sum : Int) < k) :
    dictLookup (fullToSubTable counts) k = none := by
  unfold dictLookup fullToSubTable
  apply dictLookup_go_none
  intro x hx
  rcases List.mem_cons.mp hx with rfl | hx
  · omega
  · have := cum_sum_go_mem_le 0 counts x (by simpa [cum_sum] using hx)
    omega

/-- Success of `__post_init__` in terms of its two checks. -/
lemma validateSeq_ok_iff {τ : Type} (tokens : List String)
    (md : PreppedTokenMetadata τ) (flag : Bool) :
    validateSeq tokens md flag = .ok () ↔
      (tokens.length = md.n_subtokens_per_token.sum ∧
       (flag = true →
        firstNonTerminalToken tokens md.n_subtokens_per_token = none)) := by
  unfold validateSeq
  split_ifs with h1 h2
  · simp [h1]
  · cases hft : firstNonTerminalToken tokens md.n_subtokens_per_token <;>
      simp [h1, h2, hft] <;> omega
  · simp at h2
    simp [h1, h2]
    omega

/-- Success of the constructor, with the produced instance. -/
lemma mkSeq_ok_iff {τ : Type} (tokens : List String)
    (md : PreppedTokenMetadata τ) (flag : Bool) (s : PreppedTokenSequence τ) :
    mkPreppedTokenSequence tokens md flag = .ok s ↔
      (validateSeq tokens md flag = .ok () ∧
       s = ⟨tokens, md, flag, fullToSubTable md.n_subtokens_per_token⟩) := by
  unfold mkPreppedTokenSequence
  cases h : validateSeq tokens md flag with
  | ok u => cases u; simp [Except.map, h, eq_comm]
  | error e => simp [Except.map, h]

/-- Success of the full-view constructor, with the produced instance. -/
lemma mkFull_ok_iff {τ β : Type} (tokens : List String)
    (md : PreppedTokenMetadata τ) (flag : Bool) (fmt : List String → β)
    (rtt : Bool) (s : PreppedFullTokenSequence τ β) :
    mkPreppedFullTokenSequence tokens md flag fmt rtt = .ok s ↔
      (validateSeq tokens md flag = .ok () ∧
       s = ⟨⟨tokens, md, flag, fullToSubTable md.n_subtokens_per_token⟩,
            fmt, rtt⟩) := by
  unfold mkPreppedFullTokenSequence
  cases h : validateSeq tokens md flag with
  | ok u => cases u; simp [Except.map, h, eq_comm]
  | error e => simp [Except.map, h]

/-- A valid sequence passes validation. -/
lemma IsValid.validate {τ : Type} {s : PreppedTokenSequence τ}
    (h : IsValid s) :
    validateSeq s.tokens s.metadata s.word_end_token_added = .ok () :=
  ((mkSeq_ok_iff _ _ _ _).mp h).1

/-- A valid sequence stores the canonical index table. -/
lemma IsValid.table {τ : Type} {s : PreppedTokenSequence τ}
    (h : IsValid s) :
    s.full_to_sub_token_indices =
      fullToSubTable s.metadata.n_subtokens_per_token := by
  have := ((mkSeq_ok_iff _ _ _ _).mp h).2
  exact congrArg PreppedTokenSequence.full_to_sub_token_indices this

/-- A valid sequence's token count is the metadata's total sub-token count. -/
lemma IsValid.length {τ : Type} {s : PreppedTokenSequence τ}
    (h : IsValid s) :
    s.tokens.length = s.metadata.n_subtokens_per_token.sum :=
  ((validateSeq_ok_iff _ _ _).mp h.validate).1

/-- With the terminal-marker flag set, a valid sequence has no offending full
token. -/
lemma IsValid.markers {τ : Type} {s : PreppedTokenSequence τ}
    (h : IsValid s) (hf : s.word_end_token_added = true) :
    firstNonTerminalToken s.tokens s.metadata.n_subtokens_per_token = none :=
  ((validateSeq_ok_iff _ _ _).mp h.validate).2 hf

/-- The length of a valid full view is defined and is the number of full
tokens. -/
lemma IsValidFull.lenOpt {τ β : Type} {s : PreppedFullTokenSequence τ β}
    (h : IsValidFull s) :
    fullLenOpt s = some s.metadata.n_subtokens_per_token.length := by
  unfold fullLenOpt
  rw [IsValid.table h, IsValid.length h, dictLookup_table_sum]

/-- C1: for every valid token sequence `s`, deriving a full-token view and
then deriving a sub-token view from that full view succeeds and yields a
sequence whose tokens list, subtoken counts and token types are exactly those
of `s`. -/
theorem claim_C1_roundtrip {τ β : Type} (s : PreppedTokenSequence τ)
    (hs : IsValid s) (fmt : List String → β) (rtt : Bool) :
    ∃ f s', full_tokens_view s fmt rtt = .ok f ∧
      sub_token_view f.toPreppedTokenSequence = .ok s' ∧
      s'.tokens = s.tokens ∧
      s'.metadata.n_subtokens_per_token = s.metadata.n_subtokens_per_token ∧
      s'.metadata.token_types = s.metadata.token_types := by
  have hv := hs.validate
  refine ⟨⟨⟨s.tokens, s.metadata, s.word_end_token_added,
            fullToSubTable s.metadata.n_subtokens_per_token⟩, fmt, rtt⟩,
          ⟨s.tokens, s.metadata, s.word_end_token_added,
            fullToSubTable s.metadata.n_subtokens_per_token⟩,
          ?_, ?_, rfl, rfl, rfl⟩
  · unfold full_tokens_view
    exact (mkFull_ok_iff _ _ _ _ _ _).mpr ⟨hv, rfl⟩
  · unfold sub_token_view
    exact (mkSeq_ok_iff _ _ _ _).mpr ⟨hv, rfl⟩

/-- C1 witness: the round trip instantiated on the doctest sequence. -/
theorem claim_C1_roundtrip_witness :
    ∃ f s', full_tokens_view exSeq String.join false = .ok f ∧
      sub_token_view f.toPreppedTokenSequence = .ok s' ∧
      s'.tokens = exSeq.tokens ∧
      s'.metadata.n_subtokens_per_token = exSeq.metadata.n_subtokens_per_token ∧
      s'.metadata.token_types = exSeq.metadata.token_types :=
  claim_C1_roundtrip exSeq (by unfold IsValid; decide) String.join false

/-- C7: for every valid sequence with positive counts whose token count is
the metadata total, the full view's `__len__` (the stored `sub_to_full`
dictionary at `len(tokens)`) is defined and equals the number of full
tokens. -/
theorem claim_C7_full_length {τ β : Type} (s : PreppedTokenSequence τ)
    (hs : IsValid s)
    (hpos : ∀ c ∈ s.metadata.n_subtokens_per_token, 0 < c)
    (fmt : List String → β) (rtt : Bool) :
    ∃ f, full_tokens_view s fmt rtt = .ok f ∧
      fullLenOpt f = some s.metadata.n_subtokens_per_token.length := by
  refine ⟨⟨⟨s.tokens, s.metadata, s.word_end_token_added,
            fullToSubTable s.metadata.n_subtokens_per_token⟩, fmt, rtt⟩,
          ?_, ?_⟩
  · unfold full_tokens_view
    exact (mkFull_ok_iff _ _ _ _ _ _).mpr ⟨hs.validate, rfl⟩
  · show dictLookup (fullToSubTable s.metadata.n_subtokens_per_token)
      ((s.tokens.length : Nat) : Int) = _
    rw [hs.length, dictLookup_table_sum]

/-- C7 witness: the doctest sequence has full-view length 2. -/
theorem claim_C7_full_length_witness :
    ∃ f, full_tokens_view exSeq String.join false = .ok f ∧
      fullLenOpt f = some exSeq.metadata.n_subtokens_per_token.length :=
  claim_C7_full_length exSeq (by unfold IsValid; decide) (by decide)
    String.join false

/-- C3 counterexample: concatenating a carrier with a sub-token view raises
`TypeError` (the `isinstance` check in `SurrogatePreppedTokenSequence.add`
accepts only another carrier), contradicting the claim that a SubTokenView
operand is reduced to its raw tokens without raising. -/
theorem claim_C3_counterexample :
    surrogateAdd (τ := Nat) ⟨["re</t>"]⟩ (.seq exSeq) =
      .error .invalidOperand := rfl

/-- C3 amended: a carrier operand yields a new carrier over the concatenated
raw tokens; any other operand — including a synchronized sub-token view —
raises `TypeError`. -/
theorem claim_C3_amended {τ : Type} (c t : SurrogatePreppedTokenSequence)
    (s : PreppedTokenSequence τ) :
    surrogateAdd (τ := τ) c (.surrogate t) = .ok ⟨c.tokens ++ t.tokens⟩ ∧
    surrogateAdd c (.seq s) = .error .invalidOperand ∧
    surrogateAdd (τ := τ) c .other = .error .invalidOperand :=
  ⟨rfl, rfl, rfl⟩

/-- The constructor only raises the two `__post_init__` errors. -/
lemma validateSeq_error_cases {τ : Type} (tokens : List String)
    (md : PreppedTokenMetadata τ) (flag : Bool) (e : PyError)
    (h : validateSeq tokens md flag = .error e) :
    (∃ n m, e = .lengthMismatch n m) ∨ ∃ t, e = .missingTerminalMarker t := by
  unfold validateSeq at h
  split_ifs at h with h1 h2
  · simp only [Except.error.injEq] at h
    exact Or.inl ⟨_, _, h.symm⟩
  · rcases hft : firstNonTerminalToken tokens md.n_subtokens_per_token with _ | t
    · rw [hft] at h
      simp at h
    · rw [hft] at h
      simp only [Except.error.injEq] at h
      exact Or.inr ⟨t, h.symm⟩

/-- Constructor failure is exactly validation failure. -/
lemma mkSeq_error_iff {τ : Type} (tokens : List String)
    (md : PreppedTokenMetadata τ) (flag : Bool) (e : PyError) :
    mkPreppedTokenSequence tokens md flag = .error e ↔
      validateSeq tokens md flag = .error e := by
  unfold mkPreppedTokenSequence
  cases h : validateSeq tokens md flag <;> simp [Except.map, h]

/-- Full-view constructor failure is exactly validation failure. -/
lemma mkFull_error_iff {τ β : Type} (tokens : List String)
    (md : PreppedTokenMetadata τ) (flag : Bool) (fmt : List String → β)
    (rtt : Bool) (e : PyError) :
    mkPreppedFullTokenSequence tokens md flag fmt rtt = .error e ↔
      validateSeq tokens md flag = .error e := by
  unfold mkPreppedFullTokenSequence
  cases h : validateSeq tokens md flag <;> simp [Except.map, h]

/-- The only errors of one bound's full-index translation are `KeyError` and
`IndexError`. -/
lemma fullConvert_error_cases {τ β : Type} (s : PreppedFullTokenSequence τ β)
    (idx : Option Int) (e : PyError) (h : fullConvert s idx = .error e) :
    (∃ k, e = .keyError k) ∨ e = .indexError := by
  rcases idx with _ | i
  · simp [fullConvert] at h
  · rcases hn : fullLenOpt s with _ | n
    · simp [fullConvert, hn] at h
      exact Or.inl ⟨_, h.symm⟩
    · rcases hc : convertIndexCore n (fullToSubFn s.toPreppedTokenSequence) i
        with _ | v
      · simp [fullConvert, hn, hc] at h
        exact Or.inr h.symm
      · simp [fullConvert, hn, hc] at h

/-- Unfolding of sub-view slicing at an explicit step-free slice. -/
lemma subGetItem_slice_eq {τ : Type} (s : PreppedTokenSequence τ)
    (a b : Option Int) :
    subGetItem s (.slice a b none) =
      match subConvert s a, subConvert s b with
      | some cs, some ce =>
        (mkPreppedTokenSequence (pySlice s.tokens a b)
          ⟨pySlice s.metadata.n_subtokens_per_token cs ce,
           pySlice s.metadata.token_types cs ce⟩
          s.word_end_token_added).map SubSliceResult.view
      | _, _ => .ok (.carrier ⟨pySlice s.tokens a b⟩) := rfl

/-- Unfolding of sub-view item access at an integer key. -/
lemma subGetItem_int_eq {τ : Type} (s : PreppedTokenSequence τ) (i : Int) :
    subGetItem s (.int i) =
      match subConvert s (some i), subConvert s (some (i + 1)) with
      | some cs, some ce =>
        (mkPreppedTokenSequence (pySlice s.tokens (some i) (some (i + 1)))
          ⟨pySlice s.metadata.n_subtokens_per_token cs ce,
           pySlice s.metadata.token_types cs ce⟩
          s.word_end_token_added).map SubSliceResult.view
      | _, _ => .ok (.carrier ⟨pySlice s.tokens (some i) (some (i + 1))⟩) := rfl

/-- Unfolding of full-view slicing at an explicit step-free slice. -/
lemma fullGetItem_slice_eq {τ β : Type} (s : PreppedFullTokenSequence τ β)
    (a b : Option Int) :
    fullGetItem s (.slice a b none) =
      match fullConvert s a with
      | .error e => .error e
      | .ok cs =>
        match fullConvert s b with
        | .error e => .error e
        | .ok ce =>
          mkPreppedFullTokenSequence (pySlice s.tokens cs ce)
            ⟨pySlice s.metadata.n_subtokens_per_token a b,
             pySlice s.metadata.token_types a b⟩
            s.word_end_token_added s.formatter s.return_token_type := by
  show Except.bind _ _ = _
  rcases fullConvert s a with e | cs
  · rfl
  · show Except.bind _ _ = _
    rcases fullConvert s b with e | ce <;> rfl

/-- Unfolding of full-view item access at an integer key. -/
lemma fullGetItem_int_eq {τ β : Type} (s : PreppedFullTokenSequence τ β)
    (i : Int) :
    fullGetItem s (.int i) =
      match fullConvert s (some i) with
      | .error e => .error e
      | .ok cs =>
        match fullConvert s (some (i + 1)) with
        | .error e => .error e
        | .ok ce =>
          mkPreppedFullTokenSequence (pySlice s.tokens cs ce)
            ⟨pySlice s.metadata.n_subtokens_per_token (some i) (some (i + 1)),
             pySlice s.metadata.token_types (some i) (some (i + 1))⟩
            s.word_end_token_added s.formatter s.return_token_type := by
  show Except.bind _ _ = _
  rcases fullConvert s (some i) with e | cs
  · rfl
  · show Except.bind _ _ = _
    rcases fullConvert s (some (i + 1)) with e | ce <;> rfl

/-- A step-free sub-view slice never fails with the step error. -/
lemma subGetItem_no_step {τ : Type} (s : PreppedTokenSequence τ)
    (a b : Option Int) :
    subGetItem s (.slice a b none) ≠ .error .unsupportedStep := by
  intro h
  rw [subGetItem_slice_eq] at h
  rcases h1 : subConvert s a with _ | cs <;> rw [h1] at h
  · rcases h2 : subConvert s b with _ | ce <;> rw [h2] at h <;> simp at h
  · rcases h2 : subConvert s b with _ | ce <;> rw [h2] at h
    · simp at h
    · dsimp only at h
      rcases hm : mkPreppedTokenSequence (pySlice s.tokens a b)
          ⟨pySlice s.metadata.n_subtokens_per_token cs ce,
           pySlice s.metadata.token_types cs ce⟩
          s.word_end_token_added with e | v <;> rw [hm] at h
      · simp only [Except.map, Except.error.injEq] at h
        rcases validateSeq_error_cases _ _ _ _ ((mkSeq_error_iff _ _ _ _).mp hm)
          with ⟨n, m, he⟩ | ⟨t, he⟩ <;> rw [he] at h <;> exact absurd h (by simp)
      · simp [Except.map] at h

/-- A step-free full-view slice never fails with the step error. -/
lemma fullGetItem_no_step {τ β : Type} (s : PreppedFullTokenSequence τ β)
    (a b : Option Int) :
    fullGetItem s (.slice a b none) ≠ .error .unsupportedStep := by
  intro h
  rw [fullGetItem_slice_eq] at h
  rcases h1 : fullConvert s a with e | cs <;> rw [h1] at h
  · rcases fullConvert_error_cases s a e h1 with ⟨k, he⟩ | he <;> rw [he] at h <;>
      simp at h
  · rcases h2 : fullConvert s b with e | ce <;> rw [h2] at h
    · rcases fullConvert_error_cases s b e h2 with ⟨k, he⟩ | he <;> rw [he] at h <;>
        simp at h
    · dsimp only at h
      rcases hm : mkPreppedFullTokenSequence (pySlice s.tokens cs ce)
          ⟨pySlice s.metadata.n_subtokens_per_token a b,
           pySlice s.metadata.token_types a b⟩
          s.word_end_token_added s.formatter s.return_token_type with e | v <;>
        rw [hm] at h
      · simp only [Except.error.injEq] at h
        rcases validateSeq_error_cases _ _ _ _ ((mkFull_error_iff _ _ _ _ _ _).mp hm)
          with ⟨n, m, he⟩ | ⟨t, he⟩ <;> rw [he] at h <;> exact absurd h (by simp)
      · simp at h

/-- C6 counterexample: on the doctest full view, a slice request with step
exactly one is rejected with the step error (the source checks
`item.step is not None`, so even a unit step is refused), contradicting the
claim that a step of exactly one is accepted and processed normally. -/
theorem claim_C6_counterexample :
    full_tokens_view exSeq String.join false =
      .ok ⟨⟨exSeq.tokens, exSeq.metadata, true, [0, 1, 3]⟩, String.join, false⟩ ∧
    fullGetItem
      (⟨⟨exSeq.tokens, exSeq.metadata, true, [0, 1, 3]⟩, String.join, false⟩ :
        PreppedFullTokenSequence Nat String)
      (.slice (some 0) (some 2) (some 1)) = .error .unsupportedStep :=
  ⟨rfl, rfl⟩

/-- C6 amended: a slice request with any explicit step — including a step of
exactly one — is rejected immediately with the step error, on both views; a
slice request with the step omitted is never rejected with that error. -/
theorem claim_C6_amended {τ β : Type} (s : PreppedTokenSequence τ)
    (f : PreppedFullTokenSequence τ β) (a b : Option Int) (k : Int) :
    subGetItem s (.slice a b (some k)) = .error .unsupportedStep ∧
    fullGetItem f (.slice a b (some k)) = .error .unsupportedStep ∧
    subGetItem s (.slice a b none) ≠ .error .unsupportedStep ∧
    fullGetItem f (.slice a b none) ≠ .error .unsupportedStep :=
  ⟨rfl, rfl, subGetItem_no_step s a b, fullGetItem_no_step f a b⟩

/-- C2 counterexample: two valid one-token full views, each of length 1, whose
in-place concatenation has an undefined `length()` — the stored `sub_to_full`
dictionary is not rebuilt by `add`, so looking up the new token count raises
`KeyError` instead of returning 2. -/
theorem claim_C2_counterexample :
    fullLenOpt exCatA = some 1 ∧ fullLenOpt exCatB = some 1 ∧
    fullLenOpt (fullAdd exCatA exCatB.toPreppedTokenSequence) = none :=
  ⟨rfl, rfl, rfl⟩

/-- C2 amended: concatenating a valid full view `a` with a valid view `b`
does extend the tokens and append both metadata arrays in place and return
the receiver, but the derived index tables are **not** rebuilt: the result
keeps `a`'s stored table, and whenever `b` is non-empty the result's
`length()` raises `KeyError` (the merged token count is no key of the stale
dictionary) instead of returning `length(a) + length(b)`. -/
theorem claim_C2_amended {τ β : Type} (a b : PreppedFullTokenSequence τ β)
    (ha : IsValidFull a) (hb : IsValidFull b) (hne : b.tokens ≠ []) :
    (fullAdd a b.toPreppedTokenSequence).tokens = a.tokens ++ b.tokens ∧
    (fullAdd a b.toPreppedTokenSequence).metadata.n_subtokens_per_token =
      a.metadata.n_subtokens_per_token ++ b.metadata.n_subtokens_per_token ∧
    (fullAdd a b.toPreppedTokenSequence).metadata.token_types =
      a.metadata.token_types ++ b.metadata.token_types ∧
    (fullAdd a b.toPreppedTokenSequence).full_to_sub_token_indices =
      a.full_to_sub_token_indices ∧
    fullLenOpt (fullAdd a b.toPreppedTokenSequence) = none := by
  refine ⟨rfl, rfl, rfl, rfl, ?_⟩
  unfold fullLenOpt
  show dictLookup a.full_to_sub_token_indices
    (((a.tokens ++ b.tokens).length : Nat) : Int) = none
  rw [IsValid.table ha]
  apply dictLookup_table_gt
  have hlen := IsValid.length ha
  have hb1 : 0 < b.tokens.length := List.length_pos.mpr hne
  simp only [List.length_append]
  omega

/-- C2 witness: the amended statement instantiated on the two concrete
one-token views. -/
theorem claim_C2_amended_witness :
    (fullAdd exCatA exCatB.toPreppedTokenSequence).tokens =
      exCatA.tokens ++ exCatB.tokens ∧
    (fullAdd exCatA exCatB.toPreppedTokenSequence).metadata.n_subtokens_per_token =
      exCatA.metadata.n_subtokens_per_token ++
        exCatB.metadata.n_subtokens_per_token ∧
    (fullAdd exCatA exCatB.toPreppedTokenSequence).metadata.token_types =
      exCatA.metadata.token_types ++ exCatB.metadata.token_types ∧
    (fullAdd exCatA exCatB.toPreppedTokenSequence).full_to_sub_token_indices =
      exCatA.full_to_sub_token_indices ∧
    fullLenOpt (fullAdd exCatA exCatB.toPreppedTokenSequence) = none :=
  claim_C2_amended exCatA exCatB
    (by unfold IsValidFull IsValid; decide)
    (by unfold IsValidFull IsValid; decide)
    (by decide)

/-- C4: on any valid sub-token view, a step-free slice whose sub-to-full
translation fails on either bound returns an unsynchronized carrier holding
exactly `tokens[start:stop]`, with no metadata. -/
theorem claim_C4_degradation {τ : Type} (s : PreppedTokenSequence τ)
    (hs : IsValid s) (a b : Option Int)
    (hfail : subConvert s a = none ∨ subConvert s b = none) :
    subGetItem s (.slice a b none) = .ok (.carrier ⟨pySlice s.tokens a b⟩) := by
  rw [subGetItem_slice_eq]
  rcases h1 : subConvert s a with _ | cs
  · rcases h2 : subConvert s b with _ | ce <;> rfl
  · rcases h2 : subConvert s b with _ | ce
    · rfl
    · exfalso
      rcases hfail with hf | hf
      · rw [h1] at hf; exact Option.noConfusion hf
      · rw [h2] at hf; exact Option.noConfusion hf

/-- C4 witness: on the doctest sequence (`['hi</t>', 'the', 're</t>']`,
counts `[1, 2]`), the bound 2 of the slice `[1:2]` lies inside the second
full token, so the slice degrades to a carrier holding exactly `['the']`. -/
theorem claim_C4_degradation_witness :
    subConvert exSeq (some 2) = none ∧
    subGetItem exSeq (.slice (some 1) (some 2) none) =
      .ok (.carrier ⟨["the"]⟩) := by
  have hfail : subConvert exSeq (some 2) = none := by
    rw [show subConvert exSeq (some 2) =
      (convertIndexCore (subLen exSeq) (subToFullFn exSeq) 2).map some from rfl]
    rw [convertIndexCore_in_range _ _ _ (by decide) (by decide)]
    decide
  refine ⟨hfail, ?_⟩
  rw [claim_C4_degradation exSeq (by unfold IsValid; decide) (some 1) (some 2)
    (Or.inr hfail)]
  rfl

/-- C10: on any valid sequence with counts `[1, 2]`, the sub view's iterator
in broadcast mode over full-granularity data `[1, 2]` yields `[1, 2, 2]`, and
the full view's iterator in grouping mode over sub-granularity data
`[1, 2, 3]` (with the identity formatter, the source default) yields
`[[1], [2, 3]]`. -/
theorem claim_C10_iterators {τ β : Type} (s : PreppedTokenSequence τ)
    (hs : IsValid s) (hc : s.metadata.n_subtokens_per_token = [1, 2])
    (fmt : List String → β) (rtt : Bool) :
    (∃ sv, sub_token_view s = .ok sv ∧
       subGetIterator sv ([1, 2] : List Nat) true = some [1, 2, 2]) ∧
    (∃ f, full_tokens_view s fmt rtt = .ok f ∧
       fullGetIterator f ([1, 2, 3] : List Nat) false (fun x => x) =
         .inr [[1], [2, 3]]) := by
  constructor
  · refine ⟨⟨s.tokens, s.metadata, s.word_end_token_added,
             fullToSubTable s.metadata.n_subtokens_per_token⟩, ?_, ?_⟩
    · unfold sub_token_view
      exact (mkSeq_ok_iff _ _ _ _).mpr ⟨hs.validate, rfl⟩
    · show subOverFullIter [1, 2] s.metadata.n_subtokens_per_token = _
      rw [hc]
      simp [subOverFullIter, subOverFullAux]
  · refine ⟨⟨⟨s.tokens, s.metadata, s.word_end_token_added,
              fullToSubTable s.metadata.n_subtokens_per_token⟩, fmt, rtt⟩, ?_, ?_⟩
    · unfold full_tokens_view
      exact (mkFull_ok_iff _ _ _ _ _ _).mpr ⟨hs.validate, rfl⟩
    · show Sum.inr (fullOverSubIter [1, 2, 3] s.metadata.n_subtokens_per_token _) = _
      rw [hc]
      rfl

/-- C10 witness: the iterators instantiated on the doctest sequence. -/
theorem claim_C10_iterators_witness :
    (∃ sv, sub_token_view exSeq = .ok sv ∧
       subGetIterator sv ([1, 2] : List Nat) true = some [1, 2, 2]) ∧
    (∃ f, full_tokens_view exSeq String.join false = .ok f ∧
       fullGetIterator f ([1, 2, 3] : List Nat) false (fun x => x) =
         .inr [[1], [2, 3]]) :=
  claim_C10_iterators exSeq (by unfold IsValid; decide) (by decide)
    String.join false

/-- No failing full token means every joined full token is terminal. -/
lemma firstNonTerminal_none_iff (tokens : List String) (counts : List Nat) :
    firstNonTerminalToken tokens counts = none ↔
      ∀ ft ∈ fullOverSubIter tokens counts String.join,
        is_terminal_subtoken ft = true := by
  unfold firstNonTerminalToken
  rw [List.find?_eq_none]
  simp

/-- A failing full token exists exactly when some joined full token is not
terminal. -/
lemma firstNonTerminal_some_iff (tokens : List String) (counts : List Nat) :
    (∃ t, firstNonTerminalToken tokens counts = some t) ↔
      ∃ ft ∈ fullOverSubIter tokens counts String.join,
        is_terminal_subtoken ft = false := by
  unfold firstNonTerminalToken
  constructor
  · rintro ⟨t, ht⟩
    refine ⟨t, List.mem_of_find?_eq_some ht, ?_⟩
    have := List.find?_some ht
    simpa using this
  · rintro ⟨ft, hmem, hft⟩
    have hsome : (List.find? (fun t => ! is_terminal_subtoken t)
        (fullOverSubIter tokens counts String.join)).isSome :=
      List.find?_isSome.mpr ⟨ft, hmem, by simp [hft]⟩
    rcases Option.isSome_iff_exists.mp hsome with ⟨t, ht⟩
    exact ⟨t, ht⟩

/-- C8: construction fails with a length-mismatch error exactly when the
token count disagrees with the metadata total; when the counts agree and the
terminal-marker flag is set, it fails with a missing-terminal-marker error
exactly when some full token's joined sub-tokens are not terminal; and it
succeeds exactly when both checks pass. -/
theorem claim_C8_construction {τ : Type} (tokens : List String)
    (md : PreppedTokenMetadata τ) (flag : Bool) :
    ((∃ n m, mkPreppedTokenSequence tokens md flag =
        .error (.lengthMismatch n m)) ↔
      tokens.length ≠ md.n_subtokens_per_token.sum) ∧
    (tokens.length = md.n_subtokens_per_token.sum → flag = true →
      ((∃ t, mkPreppedTokenSequence tokens md flag =
          .error (.missingTerminalMarker t)) ↔
        ∃ ft ∈ fullOverSubIter tokens md.n_subtokens_per_token String.join,
          is_terminal_subtoken ft = false)) ∧
    ((∃ s, mkPreppedTokenSequence tokens md flag = .ok s) ↔
      (tokens.length = md.n_subtokens_per_token.sum ∧
       (flag = true →
        ∀ ft ∈ fullOverSubIter tokens md.n_subtokens_per_token String.join,
          is_terminal_subtoken ft = true))) := by
  refine ⟨?_, ?_, ?_⟩
  · constructor
    · rintro ⟨n, m, h⟩
      have hv := (mkSeq_error_iff _ _ _ _).mp h
      unfold validateSeq at hv
      split_ifs at hv with h1 h2
      · exact h1
      · rcases hft : firstNonTerminalToken tokens md.n_subtokens_per_token
          with _ | t <;> rw [hft] at hv <;> simp at hv
    · intro h1
      refine ⟨tokens.length, md.n_subtokens_per_token.sum, ?_⟩
      apply (mkSeq_error_iff _ _ _ _).mpr
      unfold validateSeq
      rw [if_pos h1]
  · intro hlen hflag
    have hval : validateSeq tokens md flag =
        match firstNonTerminalToken tokens md.n_subtokens_per_token with
        | some t => .error (.missingTerminalMarker t)
        | none => .ok () := by
      unfold validateSeq
      rw [if_neg (by omega), if_pos hflag]
    rw [← firstNonTerminal_some_iff]
    constructor
    · rintro ⟨t, h⟩
      have hv := (mkSeq_error_iff _ _ _ _).mp h
      rw [hval] at hv
      rcases hft : firstNonTerminalToken tokens md.n_subtokens_per_token
        with _ | t' <;> rw [hft] at hv
      · simp at hv
      · simp only [Except.error.injEq, PyError.missingTerminalMarker.injEq] at hv
        exact ⟨t', rfl⟩
    · rintro ⟨t, hft⟩
      refine ⟨t, (mkSeq_error_iff _ _ _ _).mpr ?_⟩
      rw [hval, hft]
  · rw [← firstNonTerminal_none_iff]
    constructor
    · rintro ⟨s, h⟩
      have := ((mkSeq_ok_iff _ _ _ _).mp h).1
      have hv := (validateSeq_ok_iff _ _ _).mp this
      exact hv
    · rintro ⟨h1, h2⟩
      exact ⟨_, (mkSeq_ok_iff _ _ _ _).mpr
        ⟨(validateSeq_ok_iff _ _ _).mpr ⟨h1, h2⟩, rfl⟩⟩

/-- C8 witness: a length mismatch (2 tokens, 1 declared), a missing terminal
marker (`'hi'` declared complete), and a successful construction. -/
theorem claim_C8_construction_witness :
    (∃ n m, mkPreppedTokenSequence (τ := Nat) ["hi", "x"] ⟨[1], [0]⟩ true =
      .error (.lengthMismatch n m)) ∧
    (∃ t, mkPreppedTokenSequence (τ := Nat) ["hi"] ⟨[1], [0]⟩ true =
      .error (.missingTerminalMarker t)) ∧
    (∃ s, mkPreppedTokenSequence ["hi</t>", "the", "re</t>"] exMeta true =
      .ok s) :=
  ⟨(claim_C8_construction ["hi", "x"] ⟨[1], [0]⟩ true).1.mpr (by decide),
   ((claim_C8_construction ["hi"] ⟨[1], [0]⟩ true).2.1 (by decide) rfl).mpr
     (by decide),
   (claim_C8_construction ["hi</t>", "the", "re</t>"] exMeta true).2.2.mpr
     (by decide)⟩

/-- One bound's translation on the length-2 assignment example: indices 0, 1
and 2 map to the stored boundaries 0, 1 and 2. -/
lemma exFull2_convert (i : Int) (h0 : 0 ≤ i) (h2 : i ≤ 2) :
    fullConvert exFull2 (some i) = .ok (some i) := by
  have hn : fullLenOpt exFull2 = some 2 := rfl
  have hc : convertIndexCore 2 (fullToSubFn exFull2.toPreppedTokenSequence) i =
      some i := by
    rw [convertIndexCore_in_range _ _ _ h0 (by exact_mod_cast h2)]
    interval_cases i <;> decide
  simp [fullConvert, hn, hc]

/-- C9: on the length-2 full view over `['hi</t>', 'there</t>']` with counts
`[1, 1]`, assigning index 1 the one-element view obtained at index 0 yields a
view whose tokens are `['hi</t>', 'hi</t>']`; assigning any value that is not
a full-token view raises `TypeError` (and, the model being pure, no state is
produced, so the view is unchanged). -/
theorem claim_C9_assignment :
    (∃ v s', fullGetItem exFull2 (.int 0) = .ok v ∧
       fullSetItem exFull2 1 (.fullView v) = .ok s' ∧
       s'.tokens = ["hi</t>", "hi</t>"]) ∧
    (∀ w : PreppedTokenSequence Nat,
       fullSetItem exFull2 1 (.subView w) = .error .invalidOperand) ∧
    (∀ c : SurrogatePreppedTokenSequence,
       fullSetItem exFull2 1 (.surrogate c) = .error .invalidOperand) ∧
    fullSetItem exFull2 1 (.other) = .error .invalidOperand := by
  refine ⟨?_, fun w => rfl, fun c => rfl, rfl⟩
  have hv : fullGetItem exFull2 (.int 0) =
      .ok ⟨⟨["hi</t>"], ⟨[1], [0]⟩, true, [0, 1]⟩, String.join, false⟩ := by
    rw [fullGetItem_int_eq, exFull2_convert 0 (by omega) (by omega),
        exFull2_convert (0 + 1) (by omega) (by omega)]
    rfl
  have hpre : fullGetItem exFull2 (.slice none (some 1) none) =
      .ok ⟨⟨["hi</t>"], ⟨[1], [0]⟩, true, [0, 1]⟩, String.join, false⟩ := by
    rw [fullGetItem_slice_eq, exFull2_convert 1 (by omega) (by omega)]
    rfl
  have hsuf : fullGetItem exFull2 (.slice (some 2) none none) =
      .ok ⟨⟨[], ⟨[], []⟩, true, [0]⟩, String.join, false⟩ := by
    rw [fullGetItem_slice_eq, exFull2_convert 2 (by omega) (by omega)]
    rfl
  have hset : fullSetItem exFull2 1
      (.fullView ⟨⟨["hi</t>"], ⟨[1], [0]⟩, true, [0, 1]⟩, String.join, false⟩) =
      .ok ⟨⟨["hi</t>", "hi</t>"], ⟨[1, 1], [0, 0]⟩, true, [0, 1]⟩,
           String.join, false⟩ := by
    show Except.bind (fullGetItem exFull2 (.slice none (some 1) none)) _ = _
    rw [hpre]
    show Except.bind (fullGetItem exFull2 (.slice (some 2) none none)) _ = _
    rw [hsuf]
    rfl
  exact ⟨_, _, hv, hset, rfl⟩

/-- Slice-bound normalization for a non-negative explicit bound. -/
lemma pyBound_some_nonneg (L dflt : Nat) (i : Int) (h : 0 ≤ i) :
    pyBound L dflt (some i) = min i.toNat L := by
  unfold pyBound
  dsimp only
  rw [if_neg (by omega)]

/-- Slice-bound normalization for a negative explicit bound. -/
lemma pyBound_some_neg (L dflt : Nat) (i : Int) (h : i < 0) :
    pyBound L dflt (some i) = (max 0 ((L : Int) + i)).toNat := by
  unfold pyBound
  dsimp only
  rw [if_pos h]

/-- An omitted slice bound falls back to the default. -/
lemma pyBound_none (L dflt : Nat) : pyBound L dflt none = dflt := rfl

/-- If validation found no failing full token in a two-token sequence, the
one-token tail sequence has none either. -/
lemma firstNonTerminal_pair_tail (tokens : List String) (c0 c1 : Nat)
    (h : firstNonTerminalToken tokens [c0, c1] = none) :
    firstNonTerminalToken (tokens.drop c0) [c1] = none := by
  unfold firstNonTerminalToken at h ⊢
  rw [List.find?_eq_none] at h ⊢
  intro x hx
  apply h
  show x ∈ fullOverSubIter tokens [c0, c1] String.join
  rw [show fullOverSubIter tokens [c0, c1] String.join =
    String.join (tokens.take c0) ::
      fullOverSubIter (tokens.drop c0) [c1] String.join from rfl]
  exact List.mem_cons_of_mem _ hx

/-- C5: on every valid full-token view of length 2 (counts `[c0, c1]`, types
`[t0, t1]`): `view[-1:]` yields the view of exactly the last full token;
`view[1:1]` and `view[-2:0]` yield empty views; and `view[-10:10]` yields the
entire view unchanged. -/
theorem claim_C5_index_normalization {τ β : Type}
    (s : PreppedFullTokenSequence τ β) (hv : IsValidFull s)
    (c0 c1 : Nat) (t0 t1 : τ)
    (hc : s.metadata.n_subtokens_per_token = [c0, c1])
    (ht : s.metadata.token_types = [t0, t1]) :
    (∃ v, fullGetItem s (.slice (some (-1)) none none) = .ok v ∧
       v.tokens = s.tokens.drop c0 ∧
       v.metadata.n_subtokens_per_token = [c1] ∧
       v.metadata.token_types = [t1]) ∧
    (∃ v, fullGetItem s (.slice (some 1) (some 1) none) = .ok v ∧
       v.tokens = [] ∧ v.metadata.n_subtokens_per_token = [] ∧
       v.metadata.token_types = []) ∧
    (∃ v, fullGetItem s (.slice (some (-2)) (some 0) none) = .ok v ∧
       v.tokens = [] ∧ v.metadata.n_subtokens_per_token = [] ∧
       v.metadata.token_types = []) ∧
    fullGetItem s (.slice (some (-10)) (some 10) none) = .ok s := by
  have hmd : (⟨[c0, c1], [t0, t1]⟩ : PreppedTokenMetadata τ) = s.metadata := by
    rw [← hc, ← ht]
  have htab : s.full_to_sub_token_indices = [0, c0, c0 + c1] := by
    have h := IsValid.table hv
    rw [hc] at h
    simpa [fullToSubTable, cum_sum, cum_sum.go] using h
  have hlen : s.tokens.length = c0 + c1 := by
    have h := IsValid.length hv
    rw [hc] at h
    simpa using h
  have hn : fullLenOpt s = some 2 := by
    have h := IsValidFull.lenOpt hv
    rw [hc] at h
    simpa using h
  have hf0 : fullToSubFn s.toPreppedTokenSequence 0 = some 0 := by
    simp [fullToSubFn, pyListGet, htab]
  have hf1 : fullToSubFn s.toPreppedTokenSequence 1 = some (c0 : Int) := by
    simp [fullToSubFn, pyListGet, htab]
  have hf2 : fullToSubFn s.toPreppedTokenSequence 2 =
      some ((c0 + c1 : Nat) : Int) := by
    simp [fullToSubFn, pyListGet, htab]
  have hcm1 : fullConvert s (some (-1)) = .ok (some (c0 : Int)) := by
    have hcore : convertIndexCore 2 (fullToSubFn s.toPreppedTokenSequence)
        (-1) = some (c0 : Int) := by
      rw [convertIndexCore_neg_small 2 _ (-1) (by omega) (by omega)]
      norm_num
      exact hf1
    simp [fullConvert, hn, hcore]
  have hc1 : fullConvert s (some 1) = .ok (some (c0 : Int)) := by
    have hcore : convertIndexCore 2 (fullToSubFn s.toPreppedTokenSequence)
        1 = some (c0 : Int) := by
      rw [convertIndexCore_in_range 2 _ 1 (by omega) (by omega)]
      exact hf1
    simp [fullConvert, hn, hcore]
  have hc0 : fullConvert s (some 0) = .ok (some 0) := by
    have hcore : convertIndexCore 2 (fullToSubFn s.toPreppedTokenSequence)
        0 = some 0 := by
      rw [convertIndexCore_in_range 2 _ 0 (by omega) (by omega)]
      exact hf0
    simp [fullConvert, hn, hcore]
  have hcm2 : fullConvert s (some (-2)) = .ok (some 0) := by
    have hcore : convertIndexCore 2 (fullToSubFn s.toPreppedTokenSequence)
        (-2) = some 0 := by
      rw [convertIndexCore_neg_small 2 _ (-2) (by omega) (by omega)]
      norm_num
      exact hf0
    simp [fullConvert, hn, hcore]
  have hcm10 : fullConvert s (some (-10)) =
      .ok (some (-((c0 + c1 : Nat) : Int) - 1)) := by
    have hcore : convertIndexCore 2 (fullToSubFn s.toPreppedTokenSequence)
        (-10) = some (-((c0 + c1 : Nat) : Int) - 1) := by
      rw [convertIndexCore_neg_big 2 _ (-10) (by omega)]
      rw [show fullToSubFn s.toPreppedTokenSequence ((2 : Nat) : Int) =
        some ((c0 + c1 : Nat) : Int) from hf2]
      rfl
    simp [fullConvert, hn, hcore]
  have hnone : fullConvert s none = .ok none := rfl
  have hc10 : fullConvert s (some 10) = .ok (some ((c0 + c1 : Nat) : Int)) := by
    have hcore : convertIndexCore 2 (fullToSubFn s.toPreppedTokenSequence)
        10 = some ((c0 + c1 : Nat) : Int) := by
      rw [convertIndexCore_over 2 _ 10 (by omega)]
      exact hf2
    simp [fullConvert, hn, hcore]
  refine ⟨?_, ?_, ?_, ?_⟩
  · -- view[-1:] : the last full token
    refine ⟨⟨⟨s.tokens.drop c0, ⟨[c1], [t1]⟩, s.word_end_token_added,
              fullToSubTable [c1]⟩, s.formatter, s.return_token_type⟩,
            ?_, rfl, rfl, rfl⟩
    rw [fullGetItem_slice_eq, hcm1, hnone]
    dsimp only
    have hsA : pySlice s.tokens (some (c0 : Int)) none = s.tokens.drop c0 := by
      unfold pySlice
      rw [pyBound_some_nonneg _ _ _ (by omega), pyBound_none]
      have h1 : min (Int.toNat (c0 : Int)) s.tokens.length = c0 := by
        rw [hlen]; omega
      rw [h1]
      exact List.take_of_length_le (by simp)
    have hmA : pySlice s.metadata.n_subtokens_per_token (some (-1)) none
        = [c1] := by
      rw [hc]
      norm_num [pySlice, pyBound]
    have htA : pySlice s.metadata.token_types (some (-1)) none = [t1] := by
      rw [ht]
      norm_num [pySlice, pyBound]
    rw [hsA, hmA, htA]
    apply (mkFull_ok_iff _ _ _ _ _ _).mpr
    refine ⟨(validateSeq_ok_iff _ _ _).mpr ⟨?_, ?_⟩, rfl⟩
    · simp only [List.length_drop, hlen, List.sum_cons, List.sum_nil]
      omega
    · intro hf
      have hm := IsValid.markers hv hf
      rw [hc] at hm
      exact firstNonTerminal_pair_tail _ _ _ hm
  · -- view[1:1] : empty
    refine ⟨⟨⟨[], ⟨[], []⟩, s.word_end_token_added, fullToSubTable []⟩,
            s.formatter, s.return_token_type⟩, ?_, rfl, rfl, rfl⟩
    rw [fullGetItem_slice_eq, hc1]
    dsimp only
    have hsB : pySlice s.tokens (some (c0 : Int)) (some (c0 : Int)) = [] := by
      unfold pySlice
      rw [pyBound_some_nonneg _ _ _ (by omega),
          pyBound_some_nonneg _ _ _ (by omega)]
      simp
    have hmB : pySlice s.metadata.n_subtokens_per_token (some 1) (some 1)
        = [] := by
      rw [hc]
      norm_num [pySlice, pyBound]
    have htB : pySlice s.metadata.token_types (some 1) (some 1) = [] := by
      rw [ht]
      norm_num [pySlice, pyBound]
    rw [hsB, hmB, htB]
    apply (mkFull_ok_iff _ _ _ _ _ _).mpr
    exact ⟨(validateSeq_ok_iff _ _ _).mpr ⟨rfl, fun _ => rfl⟩, rfl⟩
  · -- view[-2:0] : empty
    refine ⟨⟨⟨[], ⟨[], []⟩, s.word_end_token_added, fullToSubTable []⟩,
            s.formatter, s.return_token_type⟩, ?_, rfl, rfl, rfl⟩
    rw [fullGetItem_slice_eq, hcm2, hc0]
    dsimp only
    have hsC : pySlice s.tokens (some 0) (some 0) = [] := by
      unfold pySlice
      rw [pyBound_some_nonneg _ _ _ (by omega),
          pyBound_some_nonneg _ _ _ (by omega)]
      simp
    have hmC : pySlice s.metadata.n_subtokens_per_token (some (-2)) (some 0)
        = [] := by
      rw [hc]
      norm_num [pySlice, pyBound]
    have htC : pySlice s.metadata.token_types (some (-2)) (some 0) = [] := by
      rw [ht]
      norm_num [pySlice, pyBound]
    rw [hsC, hmC, htC]
    apply (mkFull_ok_iff _ _ _ _ _ _).mpr
    exact ⟨(validateSeq_ok_iff _ _ _).mpr ⟨rfl, fun _ => rfl⟩, rfl⟩
  · -- view[-10:10] : the whole view
    rw [fullGetItem_slice_eq, hcm10, hc10]
    dsimp only
    have hsD : pySlice s.tokens (some (-((c0 + c1 : Nat) : Int) - 1))
        (some ((c0 + c1 : Nat) : Int)) = s.tokens := by
      unfold pySlice
      rw [pyBound_some_neg _ _ _ (by omega),
          pyBound_some_nonneg _ _ _ (by omega)]
      have h1 : (max 0 ((s.tokens.length : Int) +
          (-((c0 + c1 : Nat) : Int) - 1))).toNat = 0 := by
        rw [hlen]; omega
      have h2 : min (Int.toNat ((c0 + c1 : Nat) : Int)) s.tokens.length =
          s.tokens.length := by
        rw [hlen]; omega
      rw [h1, h2]
      simp
    have hmD : pySlice s.metadata.n_subtokens_per_token (some (-10)) (some 10)
        = [c0, c1] := by
      rw [hc]
      norm_num [pySlice, pyBound]
    have htD : pySlice s.metadata.token_types (some (-10)) (some 10)
        = [t0, t1] := by
      rw [ht]
      norm_num [pySlice, pyBound]
    rw [hsD, hmD, htD]
    apply (mkFull_ok_iff _ _ _ _ _ _).mpr
    constructor
    · rw [hmd]
      exact IsValid.validate hv
    · have htab' : fullToSubTable [c0, c1] = s.full_to_sub_token_indices := by
        rw [IsValid.table hv, hc]
      rw [show (⟨[c0, c1], [t0, t1]⟩ :
            PreppedTokenMetadata τ).n_subtokens_per_token = [c0, c1] from rfl,
          htab', hmd]

/-- C5 witness: index normalization instantiated on the concrete length-2
view over `['hi</t>', 'there</t>']` with counts `[1, 1]`. -/
theorem claim_C5_index_normalization_witness :
    (∃ v, fullGetItem exFull2 (.slice (some (-1)) none none) = .ok v ∧
       v.tokens = exFull2.tokens.drop 1 ∧
       v.metadata.n_subtokens_per_token = [1] ∧
       v.metadata.token_types = [0]) ∧
    (∃ v, fullGetItem exFull2 (.slice (some 1) (some 1) none) = .ok v ∧
       v.tokens = [] ∧ v.metadata.n_subtokens_per_token = [] ∧
       v.metadata.token_types = []) ∧
    (∃ v, fullGetItem exFull2 (.slice (some (-2)) (some 0) none) = .ok v ∧
       v.tokens = [] ∧ v.metadata.n_subtokens_per_token = [] ∧
       v.metadata.token_types = []) ∧
    fullGetItem exFull2 (.slice (some (-10)) (some 10) none) = .ok exFull2 :=
  claim_C5_index_normalization exFull2 (by unfold IsValidFull IsValid; decide)
    1 1 0 0 rfl rfl
